import Mathlib

/-!
Verification of the animated-equalizer core of `spotify_mini_player.py`
(`EqualizerWidget`): state update (`update_equalizer`), playback flag
(`set_playing`) and frame rendering (`draw_equalizer`), embedded shallowly
over exact rationals.  Python floats are modelled as `ℚ`; Python's `int()`
truncation is `pyInt`; cairo's `add_color_stop_rgba`, which by its documented
contract clamps every component into `[0, 1]`, is `addStop`.  Python's
`random.random()` draws are passed in explicitly as oracle functions.
-/

/-- Clamp a rational into `[0, 1]`, as cairo does with every color-stop
component handed to `cairo_pattern_add_color_stop_rgba`. -/
def clamp01 (q : ℚ) : ℚ := max 0 (min 1 q)

/-- Python `int()` on a rational: truncation toward zero. -/
def pyInt (q : ℚ) : ℤ := if 0 ≤ q then ⌊q⌋ else ⌈q⌉

/-- The state of `EqualizerWidget`: fields `self.bars`, `self.bar_heights`,
`self.bar_speeds`, `self.bar_directions`, `self.is_playing`, `self.colors`
from `EqualizerWidget.__init__`. -/
structure EqualizerState where
  bars : ℕ
  bar_heights : List ℚ
  bar_speeds : List ℚ
  bar_directions : List ℤ
  is_playing : Bool
  colors : List (ℚ × ℚ × ℚ)
deriving DecidableEq

/-- The fixed four-entry color table built in `EqualizerWidget.__init__`
(lines 423-428): `[(0.4,0.2,0.1), (0.6,0.4,0.2), (1.0,0.6,0.4), (1.0,0.8,0.7)]`. -/
def eqColors : List (ℚ × ℚ × ℚ) :=
  [(4/10, 2/10, 1/10), (6/10, 4/10, 2/10), (1, 6/10, 4/10), (1, 8/10, 7/10)]

/-- `EqualizerWidget.__init__` (lines 417-420): 16 bars,
`bar_heights[i] = 0.1 + random.random() * 0.9`,
`bar_speeds[i] = 0.02 + random.random() * 0.06`,
`bar_directions[i] = 1 if random.random() > 0.5 else -1`,
`is_playing = False`.  The three streams of `random.random()` draws are the
oracles `rh`, `rs`, `rd`. -/
def init_equalizer (rh rs rd : ℕ → ℚ) : EqualizerState where
  bars := 16
  bar_heights := (List.range 16).map fun i => 1/10 + rh i * (9/10)
  bar_speeds := (List.range 16).map fun i => 2/100 + rs i * (6/100)
  bar_directions := (List.range 16).map fun i => if rd i > 1/2 then 1 else -1
  is_playing := false
  colors := eqColors

/-- `EqualizerWidget.set_playing` (lines 434-436): overwrite `is_playing`. -/
def set_playing (st : EqualizerState) (playing : Bool) : EqualizerState :=
  { st with is_playing := playing }

/-- One bar's update in the playing branch of `update_equalizer`
(lines 441-454): `h += speed * direction`; bounce off the borders
(`if h >= 1.0: h = 1.0; d = -1  elif h <= 0.1: h = 0.1; d = 1`); then the
random direction flip (`if random.random() < 0.05: d *= -1`), whose draw is
the boolean `flip`. -/
def updateBarPlaying (h s : ℚ) (d : ℤ) (flip : Bool) : ℚ × ℤ :=
  let h1 := h + s * d
  let p :=
    if h1 ≥ 1 then ((1 : ℚ), (-1 : ℤ))
    else if h1 ≤ 1/10 then ((1/10 : ℚ), (1 : ℤ))
    else (h1, d)
  (p.1, if flip then -p.2 else p.2)

/-- One bar's update in the non-playing branch of `update_equalizer`
(lines 457-460): `h *= 0.95; if h < 0.1: h = 0.1`. -/
def decayBar (h : ℚ) : ℚ :=
  let h1 := h * (19/20)
  if h1 < 1/10 then 1/10 else h1

/-- `EqualizerWidget.update_equalizer` (lines 438-463), one timer tick.
`flips i` is the bar-`i` draw of `random.random() < 0.05`.  Both branches
loop `for i in range(self.bars)` over the height (and, while playing,
direction) lists. -/
def update_equalizer (flips : ℕ → Bool) (st : EqualizerState) : EqualizerState :=
  if st.is_playing then
    let upd := fun i =>
      updateBarPlaying (st.bar_heights.getD i 0) (st.bar_speeds.getD i 0)
        (st.bar_directions.getD i 0) (flips i)
    { st with
      bar_heights := (List.range st.bars).map fun i => (upd i).1
      bar_directions := (List.range st.bars).map fun i => (upd i).2 }
  else
    { st with
      bar_heights := (List.range st.bars).map fun i => decayBar (st.bar_heights.getD i 0) }

/-- A host schedule: before each tick the media poller may set `is_playing`
to an arbitrary boolean, and each tick carries its own random flip draws. -/
def run_script (script : List (Bool × (ℕ → Bool))) (st : EqualizerState) : EqualizerState :=
  script.foldl (fun s step => update_equalizer step.2 (set_playing s step.1)) st

/-- A color stop of a cairo linear gradient. -/
structure GradStop where
  offset : ℚ
  r : ℚ
  g : ℚ
  b : ℚ
  a : ℚ
deriving DecidableEq

/-- `cairo_pattern_add_color_stop_rgba`: cairo documents that the offset and
every color/alpha component outside `[0, 1]` are clamped into that range when
the stop is stored in the gradient pattern. -/
def addStop (o r g b a : ℚ) : GradStop :=
  ⟨clamp01 o, clamp01 r, clamp01 g, clamp01 b, clamp01 a⟩

/-- One bar's draw command: rounded rectangle of column position `x`, top
edge `y`, column width `w`, pixel height `h`, filled with a three-stop
vertical gradient. -/
structure BarCmd where
  x : ℚ
  y : ℚ
  w : ℚ
  h : ℚ
  stops : List GradStop
deriving DecidableEq

/-- A draw command emitted by a frame: the full-canvas background gradient
paint, or one bar fill. -/
inductive DrawCmd where
  | background (stops : List GradStop)
  | bar (b : BarCmd)
deriving DecidableEq

/-- Color-band selection in `draw_equalizer` (line 486):
`min(int(h * len(colors)), len(colors) - 1)`. -/
def color_index (h : ℚ) (n : ℕ) : ℤ := min (pyInt (h * n)) ((n : ℤ) - 1)

/-- The loop body of `draw_equalizer` (lines 477-507) for bar `i` at height
`hi`: `x = i * bar_width`, `bar_height = hi * (height - 10)`,
`y = height - bar_height - 5`; band color `colors[color_index]`; gradient
stops `(0, r*0.6, g*0.6, b*0.6, 0.8)`, `(0.5, r, g, b, 0.9)`,
`(1, r*1.2, g*1.2, b*1.2, 1.0)`. -/
def bar_command (colors : List (ℚ × ℚ × ℚ)) (bar_width canvas_height : ℚ)
    (i : ℕ) (hi : ℚ) : BarCmd :=
  let x : ℚ := i * bar_width
  let bar_height := hi * (canvas_height - 10)
  let y := canvas_height - bar_height - 5
  let ci := color_index hi colors.length
  let c := colors.getD ci.toNat (0, 0, 0)
  { x := x, y := y, w := bar_width, h := bar_height
    stops := [addStop 0 (c.1 * (6/10)) (c.2.1 * (6/10)) (c.2.2 * (6/10)) (8/10),
              addStop (1/2) c.1 c.2.1 c.2.2 (9/10),
              addStop 1 (c.1 * (12/10)) (c.2.1 * (12/10)) (c.2.2 * (12/10)) 1] }

/-- The background gradient of `draw_equalizer` (lines 468-472): stops
`(0, 0.2, 0.1, 0.05, 0.8)` and `(1, 0.1, 0.05, 0.02, 0.9)`. -/
def backgroundStops : List GradStop :=
  [addStop 0 (2/10) (1/10) (5/100) (8/10), addStop 1 (1/10) (5/100) (2/100) (9/10)]

/-- `EqualizerWidget.draw_equalizer` (lines 465-507): paint the background,
then `bar_width = width / self.bars` and one bar fill per
`i in range(self.bars)`. -/
def draw_equalizer (st : EqualizerState) (width height : ℚ) : List DrawCmd :=
  DrawCmd.background backgroundStops ::
    (List.range st.bars).map fun i =>
      DrawCmd.bar (bar_command st.colors (width / (st.bars : ℚ)) height i
        (st.bar_heights.getD i 0))

/-- `draw_equalizer` as a state transformer: the source method reads
`self.bars`, `self.bar_heights`, `self.colors` but assigns no attribute of
`self`, so the state passes through unchanged. -/
def render (st : EqualizerState) (width height : ℚ) :
    List DrawCmd × EqualizerState :=
  (draw_equalizer st width height, st)

/-- All bar heights of a state lie in `[0.1, 1.0]`. -/
def HeightsInv (st : EqualizerState) : Prop :=
  ∀ h ∈ st.bar_heights, 1/10 ≤ h ∧ h ≤ 1

instance (st : EqualizerState) : Decidable (HeightsInv st) :=
  inferInstanceAs (Decidable (∀ h ∈ st.bar_heights, 1/10 ≤ h ∧ h ≤ 1))

theorem updateBarPlaying_fst_mem (h s : ℚ) (d : ℤ) (f : Bool) :
    1/10 ≤ (updateBarPlaying h s d f).1 ∧ (updateBarPlaying h s d f).1 ≤ 1 := by
  simp only [updateBarPlaying]
  split_ifs with h1 h2
  · norm_num
  · norm_num
  · push_neg at h1 h2
    exact ⟨h2.le, h1.le⟩

theorem updateBarPlaying_snd_mem (h s : ℚ) (d : ℤ) (f : Bool)
    (hd : d = -1 ∨ d = 1) :
    (updateBarPlaying h s d f).2 = -1 ∨ (updateBarPlaying h s d f).2 = 1 := by
  simp only [updateBarPlaying]
  split_ifs <;> cases f <;> rcases hd with rfl | rfl <;> simp

theorem decayBar_eq_max (h : ℚ) : decayBar h = max (1/10) (h * (19/20)) := by
  simp only [decayBar]
  split_ifs with hlt
  · exact (max_eq_left hlt.le).symm
  · exact (max_eq_right (not_lt.mp hlt)).symm

theorem decayBar_mem (h : ℚ) (h1 : h ≤ 1) :
    1/10 ≤ decayBar h ∧ decayBar h ≤ 1 := by
  rw [decayBar_eq_max]
  refine ⟨le_max_left _ _, max_le (by norm_num) (by linarith)⟩

theorem update_equalizer_heights_playing (flips : ℕ → Bool) (st : EqualizerState)
    (hp : st.is_playing = true) :
    (update_equalizer flips st).bar_heights =
      (List.range st.bars).map fun i =>
        (updateBarPlaying (st.bar_heights.getD i 0) (st.bar_speeds.getD i 0)
          (st.bar_directions.getD i 0) (flips i)).1 := by
  simp [update_equalizer, hp]

theorem update_equalizer_heights_paused (flips : ℕ → Bool) (st : EqualizerState)
    (hp : st.is_playing = false) :
    (update_equalizer flips st).bar_heights =
      (List.range st.bars).map fun i => decayBar (st.bar_heights.getD i 0) := by
  simp [update_equalizer, hp]

theorem heightsInv_getD (st : EqualizerState) (hs : HeightsInv st) (i : ℕ) :
    st.bar_heights.getD i 0 ≤ 1 := by
  by_cases hi : i < st.bar_heights.length
  · rw [st.bar_heights.getD_eq_getElem 0 hi]
    exact (hs _ (st.bar_heights.getElem_mem hi)).2
  · rw [st.bar_heights.getD_eq_default 0 (le_of_not_lt hi)]
    norm_num

theorem update_preserves_heights (flips : ℕ → Bool) (st : EqualizerState)
    (hs : HeightsInv st) : HeightsInv (update_equalizer flips st) := by
  intro x hx
  by_cases hp : st.is_playing
  · rw [update_equalizer_heights_playing flips st hp] at hx
    simp only [List.mem_map, List.mem_range] at hx
    obtain ⟨i, -, rfl⟩ := hx
    exact updateBarPlaying_fst_mem _ _ _ _
  · rw [update_equalizer_heights_paused flips st (Bool.not_eq_true _ ▸ hp)] at hx
    simp only [List.mem_map, List.mem_range] at hx
    obtain ⟨i, -, rfl⟩ := hx
    exact decayBar_mem _ (heightsInv_getD st hs i)

theorem run_script_preserves_heights (script : List (Bool × (ℕ → Bool)))
    (st : EqualizerState) (hs : HeightsInv st) :
    HeightsInv (run_script script st) := by
  induction script generalizing st with
  | nil => exact hs
  | cons e tl ih =>
      exact ih (update_equalizer e.2 (set_playing st e.1))
        (update_preserves_heights e.2 (set_playing st e.1) hs)

theorem init_heights_mem (rh rs rd : ℕ → ℚ) (hr : ∀ i, 0 ≤ rh i ∧ rh i < 1) :
    HeightsInv (init_equalizer rh rs rd) := by
  intro x hx
  simp only [init_equalizer, List.mem_map, List.mem_range] at hx
  obtain ⟨i, -, rfl⟩ := hx
  obtain ⟨h0, h1⟩ := hr i
  constructor <;> nlinarith

/-- C1: from any construction (heights initialized into `[0.1, 1.0]`) and for
any finite schedule of ticks, with `is_playing` set arbitrarily before each
tick and arbitrary random flip draws, every bar height stays within
`[0.1, 1.0]` inclusive after every tick; more generally any state whose
heights lie in `[0.1, 1.0]` keeps that bound under every schedule. -/
theorem c1_heights_always_bounded (rh rs rd : ℕ → ℚ)
    (script : List (Bool × (ℕ → Bool)))
    (hr : ∀ i, 0 ≤ rh i ∧ rh i < 1) :
    HeightsInv (init_equalizer rh rs rd) ∧
    HeightsInv (run_script script (init_equalizer rh rs rd)) ∧
    (∀ st : EqualizerState, HeightsInv st → HeightsInv (run_script script st)) :=
  ⟨init_heights_mem rh rs rd hr,
   run_script_preserves_heights script _ (init_heights_mem rh rs rd hr),
   fun st hs => run_script_preserves_heights script st hs⟩

theorem c1_heights_always_bounded_witness :
    (∀ _i : ℕ, 0 ≤ (1 : ℚ)/2 ∧ (1 : ℚ)/2 < 1) ∧
    HeightsInv (run_script [(true, fun _ => true), (false, fun _ => false)]
      (init_equalizer (fun _ => 1/2) (fun _ => 1/2) (fun _ => 1/2))) :=
  ⟨fun _ => by norm_num,
   (c1_heights_always_bounded (fun _ => 1/2) (fun _ => 1/2) (fun _ => 1/2)
      [(true, fun _ => true), (false, fun _ => false)]
      (fun _ => by norm_num)).2.1⟩

/-- C3: while playing, a bar at height `0.97` with direction `+1` and speed
`0.05` after one tick with no random flip has height exactly `1.0` and
direction `-1`; the boundary clamp runs before the random flip, so when the
flip does fire on the same tick it negates the already-clamped direction,
giving `+1`. -/
theorem c3_bounce_before_flip :
    (update_equalizer (fun _ => false)
        ⟨1, [97/100], [1/20], [1], true, eqColors⟩).bar_heights = [1] ∧
    (update_equalizer (fun _ => false)
        ⟨1, [97/100], [1/20], [1], true, eqColors⟩).bar_directions = [-1] ∧
    (update_equalizer (fun _ => true)
        ⟨1, [97/100], [1/20], [1], true, eqColors⟩).bar_heights = [1] ∧
    (update_equalizer (fun _ => true)
        ⟨1, [97/100], [1/20], [1], true, eqColors⟩).bar_directions = [1] := by
  refine ⟨?_, ?_, ?_, ?_⟩ <;>
    norm_num [update_equalizer, updateBarPlaying, List.range_succ, List.range_zero,
      List.getD]

/-- C7: `set_playing` overwrites `is_playing` with its argument and changes
no other field (heights, speeds, directions, bar count, color table), and it
is idempotent. -/
theorem c7_set_playing_frame (st : EqualizerState) (p : Bool) :
    (set_playing st p).is_playing = p ∧
    (set_playing st p).bar_heights = st.bar_heights ∧
    (set_playing st p).bar_speeds = st.bar_speeds ∧
    (set_playing st p).bar_directions = st.bar_directions ∧
    (set_playing st p).bars = st.bars ∧
    (set_playing st p).colors = st.colors ∧
    set_playing (set_playing st p) p = set_playing st p :=
  ⟨rfl, rfl, rfl, rfl, rfl, rfl, rfl⟩

/-- A one-bar widget state used to trace a single height through the
non-playing decay regime of `update_equalizer`. -/
def decayState (h0 : ℚ) : EqualizerState :=
  ⟨1, [h0], [1/20], [1], false, eqColors⟩

theorem decayBar_iterate (h : ℚ) (hh : 1/10 ≤ h) (n : ℕ) :
    decayBar^[n] h = max (1/10) (h * (19/20) ^ n) := by
  induction n with
  | zero => simpa using (max_eq_right hh).symm
  | succ n ih =>
      rw [Function.iterate_succ_apply', ih, decayBar_eq_max,
        max_mul_of_nonneg _ _ (by norm_num : (0:ℚ) ≤ 19/20)]
      rw [← max_assoc]
      congr 1
      · exact max_eq_left (by norm_num)
      · ring

theorem run_script_false_heights (script : List (Bool × (ℕ → Bool))) :
    ∀ (st : EqualizerState) (x : ℚ), (∀ e ∈ script, e.1 = false) →
      st.bars = 1 → st.bar_heights = [x] →
      (run_script script st).bar_heights = [decayBar^[script.length] x] := by
  induction script with
  | nil =>
      intro st x _ _ hh
      simpa [run_script] using hh
  | cons e tl ih =>
      intro st x hf hb hh
      have he : e.1 = false := hf e (List.mem_cons_self e tl)
      have hstep : run_script (e :: tl) st =
          run_script tl (update_equalizer e.2 (set_playing st e.1)) := rfl
      rw [hstep]
      have hb' : (update_equalizer e.2 (set_playing st e.1)).bars = 1 := by
        simp [update_equalizer, set_playing, he, hb]
      have hh' : (update_equalizer e.2 (set_playing st e.1)).bar_heights =
          [decayBar x] := by
        simp [update_equalizer, set_playing, he, hb, hh, List.range_succ,
          List.range_zero, List.getD]
      rw [ih _ (decayBar x) (fun g hg => hf g (List.mem_cons_of_mem e hg)) hb' hh',
        List.length_cons, Function.iterate_succ_apply]

theorem decay_bound_of_ceil_le (h0 : ℚ) (hl : 1/10 < h0) :
    h0 * (19/20) ^
      (⌈Real.log ((1/10) / (h0 : ℝ)) / Real.log (19/20)⌉.toNat) ≤ 1/10 := by
  have h0q : (0 : ℚ) < h0 := by linarith
  have h0R : (0 : ℝ) < (h0 : ℝ) := by exact_mod_cast h0q
  rw [← Rat.cast_le (K := ℝ)]
  push_cast
  set t : ℝ := Real.log ((1/10) / (h0 : ℝ)) / Real.log (19/20) with ht
  set N : ℕ := ⌈t⌉.toNat with hN
  have hq : (0 : ℝ) < (1/10) / (h0 : ℝ) := by positivity
  have hlog : Real.log (19/20) < 0 := Real.log_neg (by norm_num) (by norm_num)
  have htN : t ≤ (N : ℝ) := by
    have h1 : (⌈t⌉ : ℝ) ≤ ((⌈t⌉.toNat : ℤ) : ℝ) := by
      exact_mod_cast Int.self_le_toNat ⌈t⌉
    calc t ≤ (⌈t⌉ : ℝ) := Int.le_ceil t
      _ ≤ ((⌈t⌉.toNat : ℤ) : ℝ) := h1
      _ = (N : ℝ) := by push_cast [hN]; ring
  have hpow : ((19/20 : ℝ)) ^ (N : ℝ) ≤ ((19/20 : ℝ)) ^ t :=
    Real.rpow_le_rpow_of_exponent_ge (by norm_num) (by norm_num) htN
  have hrt : ((19/20 : ℝ)) ^ t = (1/10) / (h0 : ℝ) := by
    rw [Real.rpow_def_of_pos (by norm_num), ht,
      mul_div_cancel₀ _ hlog.ne, Real.exp_log hq]
  have hnat : ((19/20 : ℝ)) ^ (N : ℝ) = ((19/20 : ℝ)) ^ N :=
    Real.rpow_natCast _ N
  have hle : ((19/20 : ℝ)) ^ N ≤ (1/10) / (h0 : ℝ) := by
    rw [← hnat, ← hrt]; exact hpow
  calc (h0 : ℝ) * (19/20) ^ N ≤ (h0 : ℝ) * ((1/10) / (h0 : ℝ)) :=
        mul_le_mul_of_nonneg_left hle h0R.le
    _ = 1/10 := by rw [mul_comm, div_mul_cancel₀ _ h0R.ne']

/-- C2: starting at any `h0 ∈ (0.1, 1.0]` with `is_playing` held false,
each tick multiplies the height by `0.95` and clamps below at `0.1` (the
closed form `max 0.1 (h0 * 0.95^n)` after `n` ticks), `0.1` is a fixed point
of the non-playing per-bar tick, and after any all-paused schedule of at
least `⌈log(0.1/h0)/log(0.95)⌉` ticks the height is exactly `0.1`. -/
theorem c2_decay_convergence (h0 : ℚ) (hl : 1/10 < h0) (hu : h0 ≤ 1)
    (script : List (Bool × (ℕ → Bool))) (hf : ∀ e ∈ script, e.1 = false) :
    decayBar (1/10) = 1/10 ∧
    (run_script script (decayState h0)).bar_heights
      = [max (1/10) (h0 * (19/20) ^ script.length)] ∧
    (⌈Real.log ((1/10) / (h0 : ℝ)) / Real.log (19/20)⌉.toNat ≤ script.length →
      (run_script script (decayState h0)).bar_heights = [1/10]) := by
  have hrun : (run_script script (decayState h0)).bar_heights
      = [max (1/10) (h0 * (19/20) ^ script.length)] := by
    rw [run_script_false_heights script (decayState h0) h0 hf rfl rfl,
      decayBar_iterate h0 hl.le script.length]
  refine ⟨by norm_num [decayBar], hrun, fun hlen => ?_⟩
  rw [hrun]
  have hmono : h0 * (19/20) ^ script.length ≤
      h0 * (19/20) ^ (⌈Real.log ((1/10) / (h0 : ℝ)) / Real.log (19/20)⌉.toNat) := by
    have := pow_le_pow_of_le_one (by norm_num : (0:ℚ) ≤ 19/20)
      (by norm_num : (19/20:ℚ) ≤ 1) hlen
    have h0pos : (0:ℚ) ≤ h0 := by linarith
    exact mul_le_mul_of_nonneg_left this h0pos
  have hbound : h0 * (19/20) ^
      (⌈Real.log ((1/10) / (h0 : ℝ)) / Real.log (19/20)⌉.toNat) ≤ 1/10 :=
    decay_bound_of_ceil_le h0 hl
  have : h0 * (19/20) ^ script.length ≤ 1/10 := le_trans hmono hbound
  rw [max_eq_left this]

theorem c2_decay_convergence_witness :
    (1/10 < (1 : ℚ)) ∧ ((1 : ℚ) ≤ 1) ∧
    (∀ e ∈ [((false : Bool), fun _ : ℕ => false)], e.1 = false) ∧
    ((run_script [((false : Bool), fun _ : ℕ => false)] (decayState 1)).bar_heights
      = [max (1/10) (1 * (19/20) ^ (1:ℕ))]) :=
  ⟨by norm_num, le_refl 1, by simp,
   (c2_decay_convergence 1 (by norm_num) (le_refl 1)
      [((false : Bool), fun _ : ℕ => false)] (by simp)).2.1⟩

/-- C4 counterexample: at a concrete 16-bar state, `draw_equalizer` with a
zero-width or zero-height canvas still emits commands (the background paint
and the bar fills), so the emitted list is not empty. -/
theorem c4_zero_size_counterexample :
    draw_equalizer (init_equalizer (fun _ => 1/2) (fun _ => 1/2) (fun _ => 1/2))
      0 60 ≠ [] ∧
    draw_equalizer (init_equalizer (fun _ => 1/2) (fun _ => 1/2) (fun _ => 1/2))
      200 0 ≠ [] :=
  ⟨List.cons_ne_nil _ _, List.cons_ne_nil _ _⟩

/-- C4 amended: `draw_equalizer` with `width = 0` or `height = 0` does not
fail; it returns the background command plus one bar command per bar
(`barCount + 1` commands with degenerate geometry), not an empty list. -/
theorem c4_zero_size_total (st : EqualizerState) :
    (draw_equalizer st 0 60).length = st.bars + 1 ∧
    (draw_equalizer st 200 0).length = st.bars + 1 := by
  constructor <;> simp [draw_equalizer]

theorem color_index_eq_floor (q : ℚ) (hq : 1/10 ≤ q) :
    color_index q eqColors.length = min ⌊q * 4⌋ 3 := by
  have hlen : eqColors.length = 4 := rfl
  rw [hlen]
  have h4 : (0 : ℚ) ≤ q * (4 : ℕ) := by push_cast; linarith
  simp only [color_index, pyInt, if_pos h4]
  norm_num

/-- C5: the band selection used by the renderer is
`min(floor(h * 4), 3)`; over `[0.1, 1.0]` it always lands in `[0, 3]` and is
non-decreasing in the bar height. -/
theorem c5_band_index (h h' : ℚ) (hl : 1/10 ≤ h) (hm : h ≤ h') (hu : h' ≤ 1) :
    color_index h eqColors.length = min ⌊h * 4⌋ 3 ∧
    0 ≤ color_index h eqColors.length ∧
    color_index h eqColors.length ≤ 3 ∧
    color_index h eqColors.length ≤ color_index h' eqColors.length := by
  have hl' : 1/10 ≤ h' := le_trans hl hm
  have e1 := color_index_eq_floor h hl
  have e2 := color_index_eq_floor h' hl'
  refine ⟨e1, ?_, ?_, ?_⟩
  · rw [e1]
    refine le_min (Int.floor_nonneg.mpr (by linarith)) (by norm_num)
  · rw [e1]
    exact min_le_right _ _
  · rw [e1, e2]
    exact min_le_min (Int.floor_le_floor (by linarith)) (le_refl 3)

theorem c5_band_index_witness :
    (1/10 ≤ (1 : ℚ)/2) ∧ ((1 : ℚ)/2 ≤ 3/4) ∧ ((3 : ℚ)/4 ≤ 1) ∧
    (color_index (1/2) eqColors.length = min ⌊(1 : ℚ)/2 * 4⌋ 3 ∧
     0 ≤ color_index (1/2) eqColors.length ∧
     color_index (1/2) eqColors.length ≤ 3 ∧
     color_index (1/2) eqColors.length ≤ color_index (3/4) eqColors.length) :=
  ⟨by norm_num, by norm_num, by norm_num,
   c5_band_index (1/2) (3/4) (by norm_num) (by norm_num) (by norm_num)⟩

theorem clamp01_of_mem (x : ℚ) (h0 : 0 ≤ x) (h1 : x ≤ 1) : clamp01 x = x := by
  rw [clamp01, min_eq_right h1, max_eq_right h0]

theorem clamp01_of_nonneg (x : ℚ) (h0 : 0 ≤ x) : clamp01 x = min x 1 := by
  rw [clamp01, min_comm, max_eq_right (le_min h0 (by norm_num))]

theorem eqColors_getD_channels (k : ℕ) :
    0 ≤ (eqColors.getD k (0, 0, 0)).1 ∧ (eqColors.getD k (0, 0, 0)).1 ≤ 1 ∧
    0 ≤ (eqColors.getD k (0, 0, 0)).2.1 ∧ (eqColors.getD k (0, 0, 0)).2.1 ≤ 1 ∧
    0 ≤ (eqColors.getD k (0, 0, 0)).2.2 ∧ (eqColors.getD k (0, 0, 0)).2.2 ≤ 1 := by
  match k with
  | 0 => norm_num [eqColors, List.getD]
  | 1 => norm_num [eqColors, List.getD]
  | 2 => norm_num [eqColors, List.getD]
  | 3 => norm_num [eqColors, List.getD]
  | (n + 4) =>
      rw [List.getD_eq_default _ _ (by simp [eqColors])]
      norm_num

theorem stops_eval (r g b : ℚ) (r0 : 0 ≤ r) (r1 : r ≤ 1) (g0 : 0 ≤ g)
    (g1 : g ≤ 1) (b0 : 0 ≤ b) (b1 : b ≤ 1) :
    [addStop 0 (r * (6/10)) (g * (6/10)) (b * (6/10)) (8/10),
     addStop (1/2) r g b (9/10),
     addStop 1 (r * (12/10)) (g * (12/10)) (b * (12/10)) 1] =
    [⟨0, r * (6/10), g * (6/10), b * (6/10), 8/10⟩,
     ⟨1/2, r, g, b, 9/10⟩,
     ⟨1, min (r * (12/10)) 1, min (g * (12/10)) 1, min (b * (12/10)) 1, 1⟩] := by
  have e0 : clamp01 (0 : ℚ) = 0 := clamp01_of_mem 0 (by norm_num) (by norm_num)
  have eh : clamp01 ((1 : ℚ)/2) = 1/2 := clamp01_of_mem _ (by norm_num) (by norm_num)
  have e1 : clamp01 (1 : ℚ) = 1 := clamp01_of_mem 1 (by norm_num) (by norm_num)
  have e8 : clamp01 ((8 : ℚ)/10) = 8/10 := clamp01_of_mem _ (by norm_num) (by norm_num)
  have e9 : clamp01 ((9 : ℚ)/10) = 9/10 := clamp01_of_mem _ (by norm_num) (by norm_num)
  have er6 : clamp01 (r * (6/10)) = r * (6/10) :=
    clamp01_of_mem _ (by nlinarith) (by nlinarith)
  have eg6 : clamp01 (g * (6/10)) = g * (6/10) :=
    clamp01_of_mem _ (by nlinarith) (by nlinarith)
  have eb6 : clamp01 (b * (6/10)) = b * (6/10) :=
    clamp01_of_mem _ (by nlinarith) (by nlinarith)
  have er : clamp01 r = r := clamp01_of_mem r r0 r1
  have eg : clamp01 g = g := clamp01_of_mem g g0 g1
  have eb : clamp01 b = b := clamp01_of_mem b b0 b1
  have er12 : clamp01 (r * (12/10)) = min (r * (12/10)) 1 :=
    clamp01_of_nonneg _ (by nlinarith)
  have eg12 : clamp01 (g * (12/10)) = min (g * (12/10)) 1 :=
    clamp01_of_nonneg _ (by nlinarith)
  have eb12 : clamp01 (b * (12/10)) = min (b * (12/10)) 1 :=
    clamp01_of_nonneg _ (by nlinarith)
  simp only [addStop, e0, eh, e1, e8, e9, er6, eg6, eb6, er, eg, eb,
    er12, eg12, eb12]

/-- C6: in every bar command the bottom stop is the selected band color with
each channel scaled by `0.6`, the middle stop is the band color as-is, and
the top stop is the band color with each channel scaled by `1.2` and clamped
to the valid channel range `[0, 1]`. -/
theorem c6_bar_gradient (bw ch : ℚ) (i : ℕ) (hi : ℚ) :
    ∃ r g b : ℚ,
      eqColors.getD (color_index hi eqColors.length).toNat (0, 0, 0) = (r, g, b) ∧
      (bar_command eqColors bw ch i hi).stops =
        [⟨0, r * (6/10), g * (6/10), b * (6/10), 8/10⟩,
         ⟨1/2, r, g, b, 9/10⟩,
         ⟨1, min (r * (12/10)) 1, min (g * (12/10)) 1,
            min (b * (12/10)) 1, 1⟩] := by
  obtain ⟨r0, r1, g0, g1, b0, b1⟩ :=
    eqColors_getD_channels (color_index hi eqColors.length).toNat
  refine ⟨_, _, _, rfl, ?_⟩
  simp only [bar_command]
  exact stops_eval _ _ _ r0 r1 g0 g1 b0 b1

theorem directions_getD_mem (st : EqualizerState)
    (hd : ∀ d ∈ st.bar_directions, d = -1 ∨ d = 1) (i : ℕ)
    (hi : i < st.bar_directions.length) :
    st.bar_directions.getD i 0 = -1 ∨ st.bar_directions.getD i 0 = 1 := by
  rw [st.bar_directions.getD_eq_getElem 0 hi]
  exact hd _ (st.bar_directions.getElem_mem hi)

/-- C8: a tick never mutates the speed list and `set_playing` mutates
neither speeds nor directions; directions stay in `{-1, +1}` through every
tick; at construction every speed lies in `[0.02, 0.08)` and every direction
is `-1` or `+1`. -/
theorem c8_structural_invariant (st : EqualizerState) (fl : ℕ → Bool)
    (p : Bool) (rh rs rd : ℕ → ℚ)
    (hlen : st.bar_directions.length = st.bars)
    (hd : ∀ d ∈ st.bar_directions, d = -1 ∨ d = 1)
    (hrs : ∀ i, 0 ≤ rs i ∧ rs i < 1) :
    (update_equalizer fl st).bar_speeds = st.bar_speeds ∧
    (set_playing st p).bar_speeds = st.bar_speeds ∧
    (set_playing st p).bar_directions = st.bar_directions ∧
    (∀ s ∈ (init_equalizer rh rs rd).bar_speeds, 2/100 ≤ s ∧ s < 8/100) ∧
    (∀ d ∈ (init_equalizer rh rs rd).bar_directions, d = -1 ∨ d = 1) ∧
    (∀ d ∈ (update_equalizer fl st).bar_directions, d = -1 ∨ d = 1) ∧
    (update_equalizer fl st).bar_directions.length =
      (update_equalizer fl st).bars := by
  refine ⟨?_, rfl, rfl, ?_, ?_, ?_, ?_⟩
  · unfold update_equalizer
    split <;> rfl
  · intro s hs
    simp only [init_equalizer, List.mem_map, List.mem_range] at hs
    obtain ⟨i, -, rfl⟩ := hs
    obtain ⟨q0, q1⟩ := hrs i
    constructor <;> nlinarith
  · intro d hdm
    simp only [init_equalizer, List.mem_map, List.mem_range] at hdm
    obtain ⟨i, -, rfl⟩ := hdm
    split
    · right; rfl
    · left; rfl
  · intro d hdm
    by_cases hp : st.is_playing
    · simp only [update_equalizer, hp, if_true, List.mem_map,
        List.mem_range] at hdm
      obtain ⟨i, hilt, rfl⟩ := hdm
      exact updateBarPlaying_snd_mem _ _ _ _
        (directions_getD_mem st hd i (by rw [hlen]; exact hilt))
    · simp only [update_equalizer, hp, if_false, Bool.false_eq_true] at hdm
      exact hd _ hdm
  · unfold update_equalizer
    split
    · simp
    · simpa using hlen

theorem c8_structural_invariant_witness :
    ((decayState 1).bar_directions.length = (decayState 1).bars) ∧
    (∀ d ∈ (decayState 1).bar_directions, d = -1 ∨ d = 1) ∧
    (∀ _i : ℕ, 0 ≤ (1 : ℚ)/2 ∧ (1 : ℚ)/2 < 1) ∧
    ((update_equalizer (fun _ => true) (decayState 1)).bar_speeds
       = (decayState 1).bar_speeds ∧
     (set_playing (decayState 1) true).bar_speeds = (decayState 1).bar_speeds ∧
     (set_playing (decayState 1) true).bar_directions
       = (decayState 1).bar_directions ∧
     (∀ s ∈ (init_equalizer (fun _ => 1/2) (fun _ => 1/2)
        (fun _ => 1/2)).bar_speeds, 2/100 ≤ s ∧ s < 8/100) ∧
     (∀ d ∈ (init_equalizer (fun _ => 1/2) (fun _ => 1/2)
        (fun _ => 1/2)).bar_directions, d = -1 ∨ d = 1) ∧
     (∀ d ∈ (update_equalizer (fun _ => true) (decayState 1)).bar_directions,
        d = -1 ∨ d = 1) ∧
     (update_equalizer (fun _ => true) (decayState 1)).bar_directions.length =
       (update_equalizer (fun _ => true) (decayState 1)).bars) :=
  ⟨rfl, by decide, fun _ => by norm_num,
   c8_structural_invariant (decayState 1) (fun _ => true) true
     (fun _ => 1/2) (fun _ => 1/2) (fun _ => 1/2) rfl (by decide)
     (fun _ => by norm_num)⟩

/-- C9: each bar's column width is exactly `width / barCount`, bar `i`
starts at `x = i * (width / barCount)`, its pixel height is
`heights[i] * (height - 10)` and its top edge sits at
`y = height - barPixelHeight - 5`. -/
theorem c9_bar_geometry (st : EqualizerState) (w ch : ℚ)
    (cs : List (ℚ × ℚ × ℚ)) (bw : ℚ) (i : ℕ) (hi : ℚ) :
    draw_equalizer st w ch =
      DrawCmd.background backgroundStops ::
        (List.range st.bars).map (fun j =>
          DrawCmd.bar (bar_command st.colors (w / (st.bars : ℚ)) ch j
            (st.bar_heights.getD j 0))) ∧
    (bar_command cs bw ch i hi).x = i * bw ∧
    (bar_command cs bw ch i hi).w = bw ∧
    (bar_command cs bw ch i hi).h = hi * (ch - 10) ∧
    (bar_command cs bw ch i hi).y = ch - hi * (ch - 10) - 5 :=
  ⟨rfl, rfl, rfl, rfl, rfl⟩

/-- C10: a render reads the state and mutates nothing — every field is
identical before and after, the emitted frame is a pure function of the
state, and interleaving a render before any tick schedule leaves the
trajectory unchanged. -/
theorem c10_render_pure (st : EqualizerState) (w ch : ℚ)
    (script : List (Bool × (ℕ → Bool))) :
    (render st w ch).2 = st ∧
    (render st w ch).2.bar_heights = st.bar_heights ∧
    (render st w ch).2.bar_speeds = st.bar_speeds ∧
    (render st w ch).2.bar_directions = st.bar_directions ∧
    (render st w ch).2.is_playing = st.is_playing ∧
    (render st w ch).2.bars = st.bars ∧
    (render st w ch).2.colors = st.colors ∧
    (render st w ch).1 = draw_equalizer st w ch ∧
    run_script script (render st w ch).2 = run_script script st :=
  ⟨rfl, rfl, rfl, rfl, rfl, rfl, rfl, rfl, rfl⟩
